import Mathlib

/-!
Verification of `package_version_checker.py` (upgrade-insight).

The script reads a dependency manifest, resolves each declared version
constraint to a plain version string, fetches the latest published version
of each package, classifies the update severity, and renders one report
record per dependency.

The embedding below translates the Python functions
`parse_version_constraint`, `compare_versions` and the analysis loop of
`analyze_packages_async` into pure Lean functions.  Effects are made
explicit: the PyPI fetch becomes a function argument, the completion order
of the concurrent fetches becomes an explicit schedule (a list of task
indices), and Python exceptions become `Except`.
-/

namespace PVC

/-- A value read from the TOML manifest, as Python sees it: a string, a
dict (list of key/value pairs, keys unique as in a Python dict), or any
other shape (`None`, int, list, ...). -/
inductive TomlVal where
  | str (s : String)
  | table (entries : List (String × TomlVal))
  | other
deriving Repr

/-- Python `str.strip()`: drop leading and trailing whitespace. -/
def trimChars (l : List Char) : List Char :=
  ((l.dropWhile Char.isWhitespace).reverse.dropWhile Char.isWhitespace).reverse

/-- The version-specifier characters removed by `re.sub(r"[\^~>=<]", "", first)`. -/
def isSpecChar (c : Char) : Bool :=
  c == '^' || c == '~' || c == '>' || c == '=' || c == '<'

/-- The string branch of `parse_version_constraint` (lines 13-21):
`constraint.split("[")[0]` (text before the first `[`), then
`.split(",")[0]` (text before the first comma), then
`re.sub(r"[\^~>=<]", "", first).strip()`.
For a single-character separator, Python `s.split(sep)[0]` is exactly the
prefix of `s` before the first occurrence of the separator, i.e.
`takeWhile`. -/
def strResolve (s : String) : String :=
  let noExtras := s.toList.takeWhile (fun c => c != '[')
  let first := noExtras.takeWhile (fun c => c != ',')
  String.mk (trimChars (first.filter (fun c => !(isSpecChar c))))

mutual

/-- `parse_version_constraint` (lines 11-26).  A string is resolved by the
stripping pipeline; a dict recursively resolves `constraint["version"]`
(Python raises `KeyError` when the key is absent, modelled by
`Except.error`); any other shape returns `None`. -/
def parse_version_constraint : TomlVal → Except String (Option String)
  | TomlVal.str s => Except.ok (some (strResolve s))
  | TomlVal.table es => lookupVersionThenResolve es
  | TomlVal.other => Except.ok none

/-- Python dict subscript `constraint["version"]` followed by the recursive
call: scan the entries for the key `"version"`; raise `KeyError` when it is
absent. -/
def lookupVersionThenResolve : List (String × TomlVal) → Except String (Option String)
  | [] => Except.error "KeyError: version"
  | (k, v) :: tl =>
    if k == "version" then parse_version_constraint v else lookupVersionThenResolve tl

end

/-! ### Semantic versions

`compare_versions` delegates parsing to the external `packaging` library,
which the spec places out of scope ("delegated to a library",
"used as-is"). -/

/-- Modelled from the spec: the parsed form produced by the external
semantic-version parser (`packaging.version.parse`), "major.minor.patch
plus optional pre-release/build metadata".  `release` is the list of
numeric components; `suffix` the optional pre-release/build tail. -/
structure SemVer where
  release : List Nat
  suffix : Option String
deriving Repr, DecidableEq

/-- Major component: first numeric component, 0 when missing. -/
def SemVer.major (v : SemVer) : Nat := v.release.headD 0

/-- Minor component: second numeric component, 0 when missing. -/
def SemVer.minor (v : SemVer) : Nat := v.release.getD 1 0

/-- Split a character list into dot-separated components. -/
def splitComps : List Char → List (List Char)
  | [] => [[]]
  | c :: tl =>
    match splitComps tl, c == '.' with
    | r, true => [] :: r
    | [], false => [[c]]
    | h :: t, false => (c :: h) :: t

/-- A numeric version component: nonempty, all decimal digits. -/
def digitsToNat : List Char → Option Nat
  | [] => none
  | ds =>
    if ds.all Char.isDigit then
      some (ds.foldl (fun n c => 10 * n + (c.toNat - 48)) 0)
    else none

/-- Modelled from the spec: the external semantic-version parser.  The
numeric release section runs up to the first `-` or `+`; every
dot-separated component must be a nonempty digit string; anything after
the first `-`/`+` is kept as pre-release/build metadata.  Any other shape
fails (`packaging` raises `InvalidVersion`, caught by the classifier). -/
def parseSemVer (s : String) : Option SemVer :=
  let cs := s.toList
  let core := cs.takeWhile (fun c => !(c == '-' || c == '+'))
  let rest := cs.drop core.length
  match (splitComps core).mapM digitsToNat with
  | some ns => some ⟨ns, if rest.isEmpty then none else some (String.mk rest)⟩
  | none => none

/-- Python truthiness test `not current` / `not latest` on an optional
string: `None` and the empty string are falsy. -/
def isMissing : Option String → Bool
  | none => true
  | some s => s == ""

/-- `compare_versions` (lines 52-72): missing/empty inputs short-circuit to
`("white", 0)`; otherwise both sides are parsed, differing majors give
`("red", 2)`, differing minors `("yellow", 1)`, anything else
`("white", 0)`; a parse failure on either side is caught and degrades to
`("white", 0)`. -/
def compare_versions (current latest : Option String) : String × Nat :=
  if isMissing current || isMissing latest then ("white", 0)
  else
    match parseSemVer (current.getD ""), parseSemVer (latest.getD "") with
    | some cv, some lv =>
      if cv.major ≠ lv.major then ("red", 2)
      else if cv.minor ≠ lv.minor then ("yellow", 1)
      else ("white", 0)
    | _, _ => ("white", 0)

/-! ### The analysis loop -/

/-- One row of the final report list (lines 110-119).  `current_version`
is optional: the concurrent variant always stores the string produced by
`parse_version_constraint` on a string constraint, but the resolver
contract allows absence. -/
structure PackageReport where
  name : String
  current_version : Option String
  latest_version : Option String
  color : String
  upgrade_level : Nat
  description : Option String
deriving Repr, DecidableEq

/-- A character of the regex class `[A-Za-z0-9_.\-]` (ASCII only). -/
def nameChar (c : Char) : Bool :=
  ('A' ≤ c && c ≤ 'Z') || ('a' ≤ c && c ≤ 'z') || ('0' ≤ c && c ≤ '9') ||
    c == '_' || c == '.' || c == '-'

/-- Index of the last `]` in a character list, if any (the greedy
`\[.*\]` backtracks to the last closing bracket). -/
def lastCloseBracket (l : List Char) : Option Nat :=
  match l.reverse.findIdx? (fun c => c == ']') with
  | some j => some (l.length - 1 - j)
  | none => none

/-- `re.match(r"([A-Za-z0-9_.\-]+)(\[.*\])?(.*)", dep)` followed by
`package = match.group(1)` and `version_constraint = match.group(3).strip()`
(lines 88-93).  Group 1 takes the maximal nonempty run of name characters
at the start (no match — dependency skipped — when the first character is
not a name character).  Group 2, when the remainder starts with `[`,
greedily runs to the last `]` reachable without crossing a newline (`.`
does not match newline); otherwise it is skipped.  Group 3 takes the rest
of the line. -/
def matchDep (dep : String) : Option (String × String) :=
  let cs := dep.toList
  let name := cs.takeWhile nameChar
  if name.isEmpty then none
  else
    let rest := cs.drop name.length
    let afterExtras :=
      match rest with
      | '[' :: tl =>
        let seg := tl.takeWhile (fun c => c != '\n')
        match lastCloseBracket seg with
        | some i => tl.drop (i + 1)
        | none => rest
      | _ => rest
    let g3 := afterExtras.takeWhile (fun c => c != '\n')
    some (String.mk name, String.mk (trimChars g3))

/-- The task list of lines 86-98: one `(package, constraint)` pair per
dependency line that matches the regex; non-matching lines are skipped. -/
def parsedDeps (deps : List String) : List (String × String) :=
  deps.filterMap matchDep

/-- The result of `get_pypi_info` for one package: `(latest, description)`
on a 200 response, `(None, None)` on a non-200 response or a network
error (lines 29-49). -/
abbrev FetchResult := Option String × Option String

/-- The fetch executed by task `i`: `get_pypi_info(session, package)` for
the `i`-th entry of the task list. -/
def fetchSlot (tasks : List (String × String)) (fetch : String → FetchResult)
    (i : Nat) : FetchResult :=
  match tasks.get? i with
  | some t => fetch t.1
  | none => (none, none)

/-- The concurrent fan-out: the tasks complete in an arbitrary schedule
`order` (a permutation of the task indices); each completion writes its
result into its own slot, tagged with its index. -/
def completionResults (g : Nat → FetchResult) (order : List Nat) :
    List (Nat × FetchResult) :=
  order.map (fun i => (i, g i))

/-- `await asyncio.gather(...)` (lines 100-102): the results are read back
in task order, regardless of the order in which the fetches completed. -/
def gatherResults (n : Nat) (slots : List (Nat × FetchResult)) :
    List FetchResult :=
  (List.range n).map (fun i => (slots.lookup i).getD (none, none))

/-- One iteration of the report loop (lines 104-119): classify
`(current_version, latest_version)` and build the record. -/
def buildReport (pkg : String) (current : Option String) (res : FetchResult) :
    PackageReport :=
  let cl := compare_versions current res.1
  { name := pkg, current_version := current, latest_version := res.1,
    color := cl.1, upgrade_level := cl.2, description := res.2 }

/-- `analyze_packages_async` (lines 81-122) with the effects made explicit:
`deps` is the `project.dependencies` list read from the manifest, `order`
the completion schedule of the concurrent fetches, `fetch` the PyPI
lookup.  For each task the current version is
`parse_version_constraint(version_constraint)`, whose argument here is
always a string, i.e. `strResolve`. -/
def analyzeWith (deps : List String) (order : List Nat)
    (fetch : String → FetchResult) : List PackageReport :=
  ((parsedDeps deps).zip
      (gatherResults (parsedDeps deps).length
        (completionResults (fetchSlot (parsedDeps deps) fetch) order))).map
    (fun tr => buildReport tr.1.1 (some (strResolve tr.1.2)) tr.2)

/-- The analysis with the canonical schedule (tasks completing in order). -/
def analyze_packages (deps : List String) (fetch : String → FetchResult) :
    List PackageReport :=
  analyzeWith deps (List.range (parsedDeps deps).length) fetch

/-- Modelled from the spec: the resolver contract
`resolve(raw) -> Optional[VersionString]` of spec §4.1 — "fails (returns
absent) if no `version` key exists", "No exceptions escape".  This is the
spec's reading of `parse_version_constraint`, with the `KeyError` path
mapped to absence. -/
def resolveSpec (v : TomlVal) : Option String :=
  match parse_version_constraint v with
  | Except.ok r => r
  | Except.error _ => none

/-- Modelled from the spec: the manifest may instead carry a
`tool.poetry.dependencies` mapping, handled by the sequential variant of
the script, which is not among the analyzed sources; per spec §6 every
entry except `"python"` is analyzed, its raw constraint (string or table
form) going through the constraint resolver. -/
def analyze_poetry (entries : List (String × TomlVal))
    (fetch : String → FetchResult) : List PackageReport :=
  (entries.filter (fun e => e.1 != "python")).map
    (fun e => buildReport e.1 (resolveSpec e.2) (fetch e.1))

/-! ### Helper lemmas -/

/-- Reading a slot of the completion list: whatever the schedule, slot `k`
holds `g k` as soon as task `k` completed. -/
theorem lookup_completionResults (g : Nat → FetchResult) (order : List Nat)
    (k : Nat) :
    (completionResults g order).lookup k =
      if k ∈ order then some (g k) else none := by
  induction order with
  | nil => simp [completionResults]
  | cons i tl ih =>
    by_cases hk : k = i
    · subst hk; simp [completionResults, List.lookup]
    · have hb : (k == i) = false := beq_eq_false_iff_ne.mpr hk
      simp only [completionResults, List.map_cons, List.lookup, hb,
        List.mem_cons] at ih ⊢
      simpa [hk] using ih

/-- Gathering after any complete schedule yields the results in task
order. -/
theorem gatherResults_perm (g : Nat → FetchResult) (order : List Nat)
    (n : Nat) (h : order.Perm (List.range n)) :
    gatherResults n (completionResults g order) = (List.range n).map g := by
  unfold gatherResults
  refine List.map_congr_left fun i hi => ?_
  have hmem : i ∈ order := h.mem_iff.mpr hi
  simp [lookup_completionResults, hmem]

/-- The analysis does not depend on the completion schedule. -/
theorem analyzeWith_perm (deps : List String) (order : List Nat)
    (fetch : String → FetchResult)
    (h : order.Perm (List.range (parsedDeps deps).length)) :
    analyzeWith deps order fetch = analyze_packages deps fetch := by
  unfold analyze_packages analyzeWith
  rw [gatherResults_perm _ _ _ h, gatherResults_perm _ _ _ (List.Perm.refl _)]

/-- The report names are the parsed task names, in manifest order. -/
theorem analyze_names (deps : List String) (fetch : String → FetchResult) :
    (analyze_packages deps fetch).map PackageReport.name =
      (parsedDeps deps).map Prod.fst := by
  unfold analyze_packages analyzeWith
  rw [gatherResults_perm _ _ _ (List.Perm.refl _), List.map_map]
  have hlen : (parsedDeps deps).length ≤
      ((List.range (parsedDeps deps).length).map
        (fetchSlot (parsedDeps deps) fetch)).length := by
    simp
  calc ((parsedDeps deps).zip _).map
        (PackageReport.name ∘ fun tr => buildReport tr.1.1 (some (strResolve tr.1.2)) tr.2)
      = ((parsedDeps deps).zip _).map (Prod.fst ∘ Prod.fst) := by
        exact List.map_congr_left fun tr _ => rfl
    _ = (((parsedDeps deps).zip _).map Prod.fst).map Prod.fst := by
        rw [List.map_map]
    _ = (parsedDeps deps).map Prod.fst := by
        rw [List.map_fst_zip _ _ hlen]

/-- `compare_versions` only ever returns the three severity records. -/
theorem compare_versions_cases (current latest : Option String) :
    compare_versions current latest = ("white", 0) ∨
    compare_versions current latest = ("yellow", 1) ∨
    compare_versions current latest = ("red", 2) := by
  unfold compare_versions
  split
  · exact Or.inl rfl
  · split
    · split_ifs
      · exact Or.inr (Or.inr rfl)
      · exact Or.inr (Or.inl rfl)
      · exact Or.inl rfl
    · exact Or.inl rfl

/-- A parse failure on either side degrades the comparison to
`("white", 0)` (the `except` branch of `compare_versions`). -/
theorem compare_versions_parse_none (current latest : Option String)
    (h : parseSemVer (current.getD "") = none ∨
         parseSemVer (latest.getD "") = none) :
    compare_versions current latest = ("white", 0) := by
  unfold compare_versions
  split_ifs with hmb
  · rfl
  · rcases h with hp | hp
    · rw [hp]
    · rw [hp]
      cases hc : parseSemVer (current.getD "") <;> rfl

/-! ### Claims -/

/-- C1, counterexample: the claim says `resolve({})` is absent and that no
exception escapes `resolve`; the code evaluates `constraint["version"]`
unguarded (line 24), so a dict without a `version` key raises `KeyError`
rather than returning `None`. -/
theorem resolve_empty_dict_raises :
    parse_version_constraint (TomlVal.table []) = Except.error "KeyError: version" ∧
    parse_version_constraint (TomlVal.table []) ≠ Except.ok none := by
  refine ⟨rfl, fun h => ?_⟩
  rw [show parse_version_constraint (TomlVal.table [])
      = Except.error "KeyError: version" from rfl] at h
  exact Except.noConfusion h

/-- C1, amended: for a dict input whose `version` key exists, `resolve`
recursively resolves that value; when the key is missing a `KeyError`
escapes (so `resolve({})` raises instead of returning absent); input of
any other non-string shape returns absent without an exception. -/
theorem resolve_dict_version_lookup (es : List (String × TomlVal)) :
    (es.lookup "version" = none →
      parse_version_constraint (TomlVal.table es) = Except.error "KeyError: version") ∧
    (∀ v, es.lookup "version" = some v →
      parse_version_constraint (TomlVal.table es) = parse_version_constraint v) ∧
    parse_version_constraint TomlVal.other = Except.ok none := by
  have key : ∀ l : List (String × TomlVal),
      (l.lookup "version" = none →
        lookupVersionThenResolve l = Except.error "KeyError: version") ∧
      (∀ v, l.lookup "version" = some v →
        lookupVersionThenResolve l = parse_version_constraint v) := by
    intro l
    induction l with
    | nil => exact ⟨fun _ => rfl, fun v h => by simp [List.lookup] at h⟩
    | cons e tl ih =>
      obtain ⟨k, w⟩ := e
      by_cases hk : k = "version"
      · subst hk
        refine ⟨fun h => ?_, fun v h => ?_⟩
        · simp [List.lookup] at h
        · simp [List.lookup] at h
          subst h
          simp [lookupVersionThenResolve]
      · have hb : ("version" == k) = false := beq_eq_false_iff_ne.mpr (Ne.symm hk)
        have hb2 : (k == "version") = false := beq_eq_false_iff_ne.mpr hk
        refine ⟨fun h => ?_, fun v h => ?_⟩
        · simp only [List.lookup, hb] at h
          simp only [lookupVersionThenResolve, hb2, if_false]
          exact ih.1 h
        · simp only [List.lookup, hb] at h
          simp only [lookupVersionThenResolve, hb2, if_false]
          exact ih.2 v h
  exact ⟨(key es).1, (key es).2, rfl⟩

/-- C1, witness for the amended claim at concrete inputs. -/
theorem resolve_dict_version_lookup_inst :
    parse_version_constraint (TomlVal.table []) = Except.error "KeyError: version" ∧
    parse_version_constraint (TomlVal.table [("version", TomlVal.str "~1.4")]) =
      parse_version_constraint (TomlVal.str "~1.4") :=
  ⟨(resolve_dict_version_lookup []).1 rfl,
   (resolve_dict_version_lookup [("version", TomlVal.str "~1.4")]).2.1
     (TomlVal.str "~1.4") rfl⟩

/-- C2: a string constraint drops everything from the first `[` onward,
keeps the text before the first comma, removes every occurrence of
`^ ~ > = <` anywhere in the remainder, and trims surrounding whitespace;
in particular `resolve("^1.2.3") = "1.2.3"`,
`resolve(">=2.0,<3.0") = "2.0"`, and the bracket suffix is stripped before
the operator characters. -/
theorem resolve_string_pipeline (s : String) :
    parse_version_constraint (TomlVal.str s) =
      Except.ok (some (String.mk (trimChars
        (((s.toList.takeWhile (fun c => c != '[')).takeWhile
            (fun c => c != ',')).filter (fun c => !(isSpecChar c)))))) ∧
    parse_version_constraint (TomlVal.str "^1.2.3") = Except.ok (some "1.2.3") ∧
    parse_version_constraint (TomlVal.str ">=2.0,<3.0") = Except.ok (some "2.0") ∧
    parse_version_constraint (TomlVal.str "numpy[css]>=1.0") = Except.ok (some "numpy") :=
  ⟨rfl, rfl, rfl, rfl⟩

/-- C3: when both sides parse as semantic versions, the classifier returns
`("red", 2)` exactly when the majors differ, else `("yellow", 1)` when the
minors differ, else `("white", 0)` — patch-level and pre-release
differences are ignored. -/
theorem classify_both_parse (c l : String) (cv lv : SemVer)
    (hc : parseSemVer c = some cv) (hl : parseSemVer l = some lv) :
    compare_versions (some c) (some l) =
      if cv.major ≠ lv.major then ("red", 2)
      else if cv.minor ≠ lv.minor then ("yellow", 1)
      else ("white", 0) := by
  have hc0 : c ≠ "" := by
    rintro rfl
    rw [show parseSemVer "" = none from rfl] at hc
    exact Option.noConfusion hc
  have hl0 : l ≠ "" := by
    rintro rfl
    rw [show parseSemVer "" = none from rfl] at hl
    exact Option.noConfusion hl
  have h1 : isMissing (some c) = false := beq_eq_false_iff_ne.mpr hc0
  have h2 : isMissing (some l) = false := beq_eq_false_iff_ne.mpr hl0
  unfold compare_versions
  rw [h1, h2]
  simp [hc, hl]

/-- C3, witness: a patch-only difference classifies as `("white", 0)` and a
major difference as `("red", 2)`. -/
theorem classify_both_parse_inst :
    compare_versions (some "1.2.3") (some "1.2.9") = ("white", 0) ∧
    compare_versions (some "1.2.3") (some "2.0.0") = ("red", 2) :=
  ⟨(classify_both_parse "1.2.3" "1.2.9" ⟨[1, 2, 3], none⟩ ⟨[1, 2, 9], none⟩
      rfl rfl).trans (by decide),
   (classify_both_parse "1.2.3" "2.0.0" ⟨[1, 2, 3], none⟩ ⟨[2, 0, 0], none⟩
      rfl rfl).trans (by decide)⟩

/-- C4: an absent input or a semantic-version parse failure on either side
makes the classifier return `("white", 0)`; no error propagates (the
embedding is a total function into `String × Nat`). -/
theorem classify_degrades (current latest : Option String)
    (h : current = none ∨ latest = none ∨
      (∃ s, current = some s ∧ parseSemVer s = none) ∨
      (∃ s, latest = some s ∧ parseSemVer s = none)) :
    compare_versions current latest = ("white", 0) := by
  rcases h with rfl | rfl | ⟨s, rfl, hp⟩ | ⟨s, rfl, hp⟩
  · rfl
  · unfold compare_versions
    simp [isMissing]
  · exact compare_versions_parse_none _ _ (Or.inl hp)
  · exact compare_versions_parse_none _ _ (Or.inr hp)

/-- C4, witness: `classify(None, "1.0.0")` and
`classify("1.0.0", "not-a-version")` both give `("white", 0)`. -/
theorem classify_degrades_inst :
    compare_versions none (some "1.0.0") = ("white", 0) ∧
    compare_versions (some "1.0.0") (some "not-a-version") = ("white", 0) :=
  ⟨classify_degrades none (some "1.0.0") (Or.inl rfl),
   classify_degrades (some "1.0.0") (some "not-a-version")
     (Or.inr (Or.inr (Or.inr ⟨"not-a-version", rfl, rfl⟩)))⟩

/-- C5: every report record produced by the analysis carries one of
exactly `("white", 0)`, `("yellow", 1)`, `("red", 2)` — the tier is in
`{0, 1, 2}` and the color is determined by the tier. -/
theorem report_tier_color (deps : List String) (fetch : String → FetchResult)
    (r : PackageReport) (hr : r ∈ analyze_packages deps fetch) :
    (r.color = "white" ∧ r.upgrade_level = 0) ∨
    (r.color = "yellow" ∧ r.upgrade_level = 1) ∨
    (r.color = "red" ∧ r.upgrade_level = 2) := by
  unfold analyze_packages analyzeWith at hr
  rw [List.mem_map] at hr
  obtain ⟨tr, -, rfl⟩ := hr
  rcases compare_versions_cases (some (strResolve tr.1.2)) tr.2.1 with h | h | h <;>
    simp [buildReport, h]

/-- C5, witness at a concrete produced record. -/
theorem report_tier_color_inst :
    ((⟨"alpha", some "1.0", none, "white", 0, none⟩ : PackageReport).color = "white" ∧
      (⟨"alpha", some "1.0", none, "white", 0, none⟩ : PackageReport).upgrade_level = 0) ∨
    ((⟨"alpha", some "1.0", none, "white", 0, none⟩ : PackageReport).color = "yellow" ∧
      (⟨"alpha", some "1.0", none, "white", 0, none⟩ : PackageReport).upgrade_level = 1) ∨
    ((⟨"alpha", some "1.0", none, "white", 0, none⟩ : PackageReport).color = "red" ∧
      (⟨"alpha", some "1.0", none, "white", 0, none⟩ : PackageReport).upgrade_level = 2) :=
  report_tier_color ["alpha>=1.0"] (fun _ => (none, none))
    ⟨"alpha", some "1.0", none, "white", 0, none⟩
    (by exact List.mem_singleton.mpr rfl)

/-- C6: for a manifest declaring the single dependency
`"requests>=2.0,<3.0"` and an index lookup returning latest `"3.1.0"`,
the report is current `"2.0"`, latest `"3.1.0"`, tier 2, color red. -/
theorem end_to_end_requests :
    analyze_packages ["requests>=2.0,<3.0"]
        (fun p => if p == "requests" then (some "3.1.0", some "Python HTTP for Humans.")
                  else (none, none)) =
      [{ name := "requests", current_version := some "2.0",
         latest_version := some "3.1.0", color := "red", upgrade_level := 2,
         description := some "Python HTTP for Humans." }] := rfl

/-- C7: a dependency whose index lookup fails (`get_pypi_info` returns
`(None, None)`) still appears at its position in the final report list,
with the current version resolved normally, latest absent, tier 0 and the
neutral color. -/
theorem fetch_failure_isolated (deps : List String) (fetch : String → FetchResult)
    (i : Nat) (pkg c : String)
    (ht : (parsedDeps deps).get? i = some (pkg, c))
    (hf : fetch pkg = (none, none)) :
    (analyze_packages deps fetch).get? i =
      some { name := pkg, current_version := some (strResolve c),
             latest_version := none, color := "white", upgrade_level := 0,
             description := none } := by
  have hi : i < (parsedDeps deps).length := by
    rcases List.get?_eq_some.1 ht with ⟨hlt, -⟩
    exact hlt
  unfold analyze_packages analyzeWith
  rw [gatherResults_perm _ _ _ (List.Perm.refl _), List.get?_map]
  have hres : ((List.range (parsedDeps deps).length).map
      (fetchSlot (parsedDeps deps) fetch)).get? i = some (none, none) := by
    rw [List.get?_map, List.get?_range hi]
    show some (fetchSlot (parsedDeps deps) fetch i) = some (none, none)
    unfold fetchSlot
    rw [ht]
    exact congrArg some hf
  have hz : ((parsedDeps deps).zip ((List.range (parsedDeps deps).length).map
      (fetchSlot (parsedDeps deps) fetch))).get? i = some ((pkg, c), (none, none)) :=
    (List.get?_zip_eq_some _ _ _ _).mpr ⟨ht, hres⟩
  rw [hz]
  simp [buildReport, compare_versions, isMissing]

/-- C7, witness at a concrete failing fetch. -/
theorem fetch_failure_isolated_inst :
    (analyze_packages ["numpy>=1.0"] (fun _ => (none, none))).get? 0 =
      some { name := "numpy", current_version := some (strResolve ">=1.0"),
             latest_version := none, color := "white", upgrade_level := 0,
             description := none } :=
  fetch_failure_isolated ["numpy>=1.0"] (fun _ => (none, none)) 0 "numpy" ">=1.0"
    rfl rfl

/-- C8: the analysis consumes a `project.dependencies` list of
`"name[extras]constraint"` strings (one report per line matching the
dependency regex, in order), and — in the spec-modelled poetry form — a
`tool.poetry.dependencies` mapping in which every entry except `"python"`
yields a report. -/
theorem manifest_forms (entries : List (String × TomlVal)) (deps : List String)
    (fetch : String → FetchResult) :
    (analyze_poetry entries fetch).map PackageReport.name =
      (entries.filter (fun e => e.1 != "python")).map Prod.fst ∧
    (analyze_packages deps fetch).map PackageReport.name =
      (parsedDeps deps).map Prod.fst := by
  refine ⟨?_, analyze_names deps fetch⟩
  unfold analyze_poetry
  rw [List.map_map]
  exact List.map_congr_left fun e _ => rfl

/-- C9: for every manifest and every completion order of the concurrent
fetches (any permutation of the task indices), the report list equals the
one produced by the canonical schedule, and its ordering is the insertion
order of the dependencies in the manifest. -/
theorem report_order_schedule_independent (deps : List String)
    (order : List Nat) (fetch : String → FetchResult)
    (h : order.Perm (List.range (parsedDeps deps).length)) :
    analyzeWith deps order fetch = analyze_packages deps fetch ∧
    (analyzeWith deps order fetch).map PackageReport.name =
      (parsedDeps deps).map Prod.fst := by
  have he := analyzeWith_perm deps order fetch h
  exact ⟨he, by rw [he]; exact analyze_names deps fetch⟩

/-- C9, witness: two dependencies fetched in reversed completion order. -/
theorem report_order_schedule_independent_inst :
    analyzeWith ["alpha>=1.0", "beta>=2.0"] [1, 0] (fun _ => (none, none)) =
      analyze_packages ["alpha>=1.0", "beta>=2.0"] (fun _ => (none, none)) ∧
    (analyzeWith ["alpha>=1.0", "beta>=2.0"] [1, 0]
        (fun _ => (none, none))).map PackageReport.name =
      (parsedDeps ["alpha>=1.0", "beta>=2.0"]).map Prod.fst :=
  report_order_schedule_independent ["alpha>=1.0", "beta>=2.0"] [1, 0]
    (fun _ => (none, none)) (by decide)

/-- C10: on any string input the resolver returns a string, never absent —
`resolve("") = ""` and `resolve(">=") = ""` — and an empty resolved
current version is treated by the classifier as missing, giving
`("white", 0)`. -/
theorem resolve_string_total (s : String) (latest : Option String) :
    (∃ t : String, parse_version_constraint (TomlVal.str s) = Except.ok (some t)) ∧
    parse_version_constraint (TomlVal.str "") = Except.ok (some "") ∧
    parse_version_constraint (TomlVal.str ">=") = Except.ok (some "") ∧
    (strResolve s = "" → compare_versions (some (strResolve s)) latest = ("white", 0)) := by
  refine ⟨⟨strResolve s, rfl⟩, rfl, rfl, fun h => ?_⟩
  rw [h]
  rfl

/-- C10, witness: the empty resolution of `">="` classifies as
`("white", 0)`. -/
theorem resolve_string_total_inst :
    compare_versions (some (strResolve ">=")) (some "1.0.0") = ("white", 0) :=
  (resolve_string_total ">=" (some "1.0.0")).2.2.2 rfl

end PVC
